import Mathlib

/-
Verification of the task-list core of the SimpleTodoApp repository
(src/App.tsx). The component state and the event handlers are embedded
shallowly: React state hooks become fields of an explicit AppState record,
each handler becomes a pure state-transition function, and the JSON
persistence layer is modelled by an explicit Json tree (JSON.parse composed
with JSON.stringify is the identity on JSON-representable data, so the
serialized document is modelled by the tree JSON.stringify walks).
Animated.Value is a mutable box holding a number; it is modelled by the
number it holds. Animated.timing drives that number to a target value and
then runs its completion callback; since the timing is purely cosmetic, the
embedding performs the callback effect at the point the source schedules it.
-/

namespace SimpleTodo

/-- Task record, from the interface Task in src/App.tsx lines 13-19:
id and text are strings, completed a boolean, description an optional
string, animationValue an optional Animated.Value (modelled by the number
the Animated.Value box currently holds). -/
structure Task where
  id : String
  text : String
  completed : Bool
  description : Option String
  animationValue : Option Nat
deriving Repr, DecidableEq

/-- Component state, from the useState hooks in src/App.tsx lines 22-26:
the new-task input field, the task list, and the edit session (currently
edited id plus the two scratch fields). -/
structure AppState where
  task : String
  tasks : List Task
  editingTaskId : Option String
  editingTaskText : String
  editingTaskDescription : String
deriving Repr, DecidableEq

/-- The initial component state: all inputs empty, no tasks, no edit
session (src/App.tsx lines 22-26). -/
def initialState : AppState :=
  { task := "", tasks := [], editingTaskId := none,
    editingTaskText := "", editingTaskDescription := "" }

/-- Model of the JavaScript String.prototype.trim used by the handlers
(task.trim() and editingTaskText.trim()): remove leading and trailing
whitespace characters. Defined by structural recursion on the character
list so that it evaluates on concrete inputs. -/
def jsTrim (s : String) : String :=
  (((s.toList.dropWhile Char.isWhitespace).reverse.dropWhile
      Char.isWhitespace).reverse).asString

/-- The task constructed by addTask (src/App.tsx lines 65-71): id is
Date.now().toString() (passed in here as the string the clock produced),
text is the raw input, completed is false, description is the empty
string, animationValue starts at 0 (the fade-in starts from opacity 0). -/
def newTask (id : String) (text : String) : Task :=
  { id := id, text := text, completed := false,
    description := some "", animationValue := some 0 }

/-- Handler addTask (src/App.tsx lines 63-82): if the trimmed input is
non-empty (JS truthiness of task.trim()), append the new task and clear
the input field; otherwise do nothing. The fade-in animation only changes
the animationValue box afterwards and is not part of the list update. -/
def addTask (s : AppState) (id : String) : AppState :=
  if jsTrim s.task ≠ "" then
    { s with tasks := s.tasks ++ [newTask id s.task], task := "" }
  else s

/-- The observable effects a handler can emit. The vocabulary covers the
state setters the component uses, the animation start, and the alert /
inline-message channel React Native offers for validation feedback (which
this code never uses). -/
inductive Effect where
  | setTasks : List Task → Effect
  | setTaskInput : String → Effect
  | startFadeIn : String → Effect
  | alert : String → Effect
deriving Repr, DecidableEq

/-- The effect trace of addTask (src/App.tsx lines 63-82): on the truthy
branch it calls setTasks, setTask and starts the fade-in; on the falsy
branch the handler body is skipped entirely, so no effect at all (in
particular no alert and no inline message) is produced. -/
def addTaskEffects (s : AppState) (id : String) : List Effect :=
  if jsTrim s.task ≠ "" then
    [Effect.setTasks (s.tasks ++ [newTask id s.task]),
     Effect.setTaskInput "",
     Effect.startFadeIn id]
  else []

/-- List-level body of toggleTaskCompletion (src/App.tsx lines 85-93):
map over the tasks, flipping completed on the task whose id matches. -/
def toggleTask (taskId : String) (tasks : List Task) : List Task :=
  tasks.map fun t => if t.id = taskId then { t with completed := !t.completed } else t

/-- Handler toggleTaskCompletion (src/App.tsx lines 85-93). -/
def toggleTaskCompletion (taskId : String) (s : AppState) : AppState :=
  { s with tasks := toggleTask taskId s.tasks }

/-- Handler startEditingTask (src/App.tsx lines 96-100). -/
def startEditingTask (taskId taskText taskDescription : String) (s : AppState) : AppState :=
  { s with editingTaskId := some taskId, editingTaskText := taskText,
           editingTaskDescription := taskDescription }

/-- Handler cancelEditing (src/App.tsx lines 103-107). -/
def cancelEditing (s : AppState) : AppState :=
  { s with editingTaskId := none, editingTaskText := "",
           editingTaskDescription := "" }

/-- List-level body of updateTask: replace text and description on the
task whose id matches the editing id (src/App.tsx lines 112-118). -/
def replaceTask (taskId : String) (text description : String) (tasks : List Task) : List Task :=
  tasks.map fun t =>
    if t.id = taskId then { t with text := text, description := some description } else t

/-- Handler updateTask (src/App.tsx lines 110-123): the guard is the JS
truthiness of editingTaskId && editingTaskText.trim(), i.e. the editing id
is a non-null non-empty string and the trimmed scratch title is non-empty.
On success it rewrites the matching task in place and exits editing mode;
otherwise it does nothing. -/
def updateTask (s : AppState) : AppState :=
  match s.editingTaskId with
  | some eid =>
    if eid ≠ "" ∧ jsTrim s.editingTaskText ≠ "" then
      { s with
        tasks := replaceTask eid s.editingTaskText s.editingTaskDescription s.tasks,
        editingTaskId := none, editingTaskText := "", editingTaskDescription := "" }
    else s
  | none => s

/-- The removal the delete completion callback performs (src/App.tsx line
135): filter out every task whose id equals taskId. -/
def removeTask (taskId : String) (tasks : List Task) : List Task :=
  tasks.filter fun t => t.id != taskId

/-- Handler deleteTask (src/App.tsx lines 126-138): look the task up by
id; if absent do nothing, if present run the exit animation whose
completion callback filters the task out. The embedding performs the
scheduled removal (the animation is purely cosmetic). -/
def deleteTask (taskId : String) (s : AppState) : AppState :=
  match s.tasks.find? (fun t => t.id == taskId) with
  | some _ => { s with tasks := removeTask taskId s.tasks }
  | none => s

/-- JSON values, the range of JSON.stringify / JSON.parse. -/
inductive Json where
  | str : String → Json
  | num : Nat → Json
  | bool : Bool → Json
  | arr : List Json → Json
  | obj : List (String × Json) → Json

/-- The serialized form of one task, as JSON.stringify produces it inside
saveTasks (src/App.tsx line 53): the own enumerable properties of the task
object in insertion order (id, text, completed, description,
animationValue as set in addTask lines 65-71 and loadTasks lines 35-38).
An absent optional field is the JS value undefined, which JSON.stringify
omits; a present Animated.Value serializes via its toJSON method to the
number it holds. -/
def encodeTask (t : Task) : Json :=
  Json.obj
    ([("id", Json.str t.id), ("text", Json.str t.text),
      ("completed", Json.bool t.completed)]
     ++ (match t.description with
         | some d => [("description", Json.str d)]
         | none => [])
     ++ (match t.animationValue with
         | some v => [("animationValue", Json.num v)]
         | none => []))

/-- The serialized document saveTasks writes under the key tasks
(src/App.tsx lines 50-60): the JSON array of the serialized tasks. -/
def encodeTasks (tasks : List Task) : Json :=
  Json.arr (tasks.map encodeTask)

/-- Property lookup on a parsed JSON object (first binding wins, as in a
JS object where JSON.parse keeps the last duplicate; serialized objects
here have distinct keys, so first equals last). -/
def lookupField (fields : List (String × Json)) (k : String) : Option Json :=
  (fields.find? fun p => p.1 == k).map fun p => p.2

/-- The load-time reconstruction of one task (src/App.tsx lines 35-38):
the parsed object is spread into a new object and animationValue is
replaced by a fresh Animated.Value(1). The spread copies the fields the
Task interface declares; a task object round-tripping through storage
carries id and text as strings, completed as a boolean and description as
an optional string, which is what this decoder reads back. -/
def decodeTask (j : Json) : Option Task :=
  match j with
  | Json.obj fields =>
    match lookupField fields "id", lookupField fields "text",
          lookupField fields "completed" with
    | some (Json.str i), some (Json.str tx), some (Json.bool c) =>
      some { id := i, text := tx, completed := c,
             description :=
               match lookupField fields "description" with
               | some (Json.str d) => some d
               | _ => none,
             animationValue := some 1 }
    | _, _, _ => none
  | _ => none

/-- The load-time reconstruction of the collection (src/App.tsx lines
29-47): parse the stored document as an array and rebuild each task. -/
def decodeTasks (j : Json) : Option (List Task) :=
  match j with
  | Json.arr js => js.mapM decodeTask
  | _ => none

/-- The field names of a serialized JSON object (top level). -/
def jsonFieldNames (j : Json) : List String :=
  match j with
  | Json.obj fields => fields.map fun p => p.1
  | _ => []

/-- One UI event, as delivered to the component by the presentation
layer: typing in the three text inputs, pressing the add, toggle, edit,
save, cancel and delete controls. The add event carries the Date.now()
timestamp observed at the press; the generated id is genId of it. -/
inductive Op where
  | setTask : String → Op
  | add : Nat → Op
  | toggle : String → Op
  | startEdit : String → String → String → Op
  | setEditText : String → Op
  | setEditDesc : String → Op
  | cancelEdit : Op
  | commitEdit : Op
  | delete : String → Op
deriving Repr, DecidableEq

/-- Id generation at add time (src/App.tsx line 66):
Date.now().toString(). -/
def genId (t : Nat) : String := Nat.repr t

/-- One step of the event-driven session: dispatch the event to the
corresponding handler of src/App.tsx. -/
def step (s : AppState) (op : Op) : AppState :=
  match op with
  | Op.setTask v => { s with task := v }
  | Op.add t => addTask s (genId t)
  | Op.toggle i => toggleTaskCompletion i s
  | Op.startEdit i tx d => startEditingTask i tx d s
  | Op.setEditText v => { s with editingTaskText := v }
  | Op.setEditDesc v => { s with editingTaskDescription := v }
  | Op.cancelEdit => cancelEditing s
  | Op.commitEdit => updateTask s
  | Op.delete i => deleteTask i s

/-- Run a session: fold the event sequence over a starting state. -/
def run (s : AppState) (ops : List Op) : AppState :=
  ops.foldl step s

/-- The ids the session generates: genId of the timestamp of each add
event, in order. -/
def addIds (ops : List Op) : List String :=
  ops.filterMap fun op =>
    match op with
    | Op.add t => some (genId t)
    | _ => none

/-- Uniqueness invariant of the live collection: no two distinct tasks
share an id. -/
def IdsUnique (tasks : List Task) : Prop :=
  (tasks.map Task.id).Nodup

/-! Example tasks and states used by the concrete witnesses. -/

/-- A concrete stored task. -/
def exTask1 : Task :=
  { id := "100", text := "Buy milk", completed := false,
    description := some "", animationValue := some 1 }

/-- A second concrete stored task with a different id. -/
def exTask2 : Task :=
  { id := "101", text := "Walk dog", completed := true,
    description := some "30 min", animationValue := some 1 }

/-! Helper lemmas about the list-level operation bodies. -/

theorem toggleTask_map_id (taskId : String) (l : List Task) :
    (toggleTask taskId l).map Task.id = l.map Task.id := by
  unfold toggleTask
  rw [List.map_map]
  apply List.map_congr_left
  intro t _
  by_cases h : t.id = taskId <;> simp [h, Function.comp]

theorem replaceTask_map_id (taskId text description : String) (l : List Task) :
    (replaceTask taskId text description l).map Task.id = l.map Task.id := by
  unfold replaceTask
  rw [List.map_map]
  apply List.map_congr_left
  intro t _
  by_cases h : t.id = taskId <;> simp [h, Function.comp]

theorem removeTask_map_id_sublist (taskId : String) (l : List Task) :
    ((removeTask taskId l).map Task.id).Sublist (l.map Task.id) :=
  (List.filter_sublist l).map Task.id

theorem toggleTask_getElem (taskId : String) (l : List Task) (i : Nat)
    (t : Task) (ht : l[i]? = some t) :
    (toggleTask taskId l)[i]? =
      some (if t.id = taskId then { t with completed := !t.completed } else t) := by
  unfold toggleTask
  rw [List.getElem?_map, ht]
  rfl

theorem replaceTask_getElem (taskId text description : String) (l : List Task)
    (i : Nat) (t : Task) (ht : l[i]? = some t) :
    (replaceTask taskId text description l)[i]? =
      some (if t.id = taskId then
              { t with text := text, description := some description }
            else t) := by
  unfold replaceTask
  rw [List.getElem?_map, ht]
  rfl

theorem toggleTask_id_not_mem (taskId : String) (l : List Task)
    (h : ∀ t ∈ l, t.id ≠ taskId) : toggleTask taskId l = l := by
  unfold toggleTask
  have hc : ∀ t ∈ l,
      (if t.id = taskId then { t with completed := !t.completed } else t) = id t := by
    intro t htl
    simp [h t htl]
  rw [List.map_congr_left hc, List.map_id]

theorem removeTask_not_mem (taskId : String) (l : List Task)
    (h : ∀ t ∈ l, t.id ≠ taskId) : removeTask taskId l = l := by
  unfold removeTask
  apply List.filter_eq_self.mpr
  intro t htl
  simpa using h t htl

theorem deleteTask_not_mem (taskId : String) (s : AppState)
    (h : ∀ t ∈ s.tasks, t.id ≠ taskId) : deleteTask taskId s = s := by
  unfold deleteTask
  have hf : s.tasks.find? (fun t => t.id == taskId) = none := by
    apply List.find?_eq_none.mpr
    intro t htl
    simpa using h t htl
  rw [hf]

theorem removeTask_mem_split (taskId : String) (l : List Task)
    (hu : IdsUnique l) (t : Task) (htl : t ∈ l) (hid : t.id = taskId) :
    ∃ l1 l2, l = l1 ++ t :: l2 ∧ removeTask taskId l = l1 ++ l2 ∧
      (∀ u ∈ l1, u.id ≠ taskId) ∧ (∀ u ∈ l2, u.id ≠ taskId) := by
  obtain ⟨l1, l2, rfl⟩ := List.append_of_mem htl
  unfold IdsUnique at hu
  rw [List.map_append, List.map_cons] at hu
  rw [List.nodup_append] at hu
  obtain ⟨h1, h2, hdisj⟩ := hu
  rw [List.nodup_cons] at h2
  have hl1 : ∀ u ∈ l1, u.id ≠ taskId := by
    intro u hul1 hcontra
    exact hdisj (List.mem_map_of_mem Task.id hul1)
      (by rw [hcontra, ← hid]; exact List.mem_cons_self _ _)
  have hl2 : ∀ u ∈ l2, u.id ≠ taskId := by
    intro u hul2 hcontra
    exact h2.1 (by rw [hid, ← hcontra]; exact List.mem_map_of_mem Task.id hul2)
  refine ⟨l1, l2, rfl, ?_, hl1, hl2⟩
  unfold removeTask
  rw [List.filter_append, List.filter_cons]
  have hnot : ¬ (t.id != taskId) = true := by simp [hid]
  rw [if_neg hnot]
  rw [List.filter_eq_self.mpr fun u hu => by simpa using hl1 u hu,
      List.filter_eq_self.mpr fun u hu => by simpa using hl2 u hu]

theorem find?_removeTask (taskId : String) (l : List Task) :
    (removeTask taskId l).find? (fun t => t.id == taskId) = none := by
  apply List.find?_eq_none.mpr
  intro t htl
  have := List.of_mem_filter htl
  simpa using this

/-- Claim C1: for every state whose trimmed input title is non-empty,
addTask grows the collection by exactly one, the new task is appended at
the end, every previously present task keeps its position and contents,
and the new task has completed = false, the given (raw input) title and
the given description (the add form supplies none, so the empty-string
default of the spec). -/
theorem addTask_appends (s : AppState) (id : String)
    (h : jsTrim s.task ≠ "") :
    (addTask s id).tasks.length = s.tasks.length + 1 ∧
    (addTask s id).tasks = s.tasks ++ [newTask id s.task] ∧
    (∀ i, i < s.tasks.length → (addTask s id).tasks[i]? = s.tasks[i]?) ∧
    (addTask s id).tasks[s.tasks.length]? = some (newTask id s.task) ∧
    (newTask id s.task).completed = false ∧
    (newTask id s.task).text = s.task ∧
    (newTask id s.task).description = some "" := by
  have he : (addTask s id).tasks = s.tasks ++ [newTask id s.task] := by
    unfold addTask
    rw [if_pos h]
  refine ⟨by rw [he]; simp, he, ?_, ?_, rfl, rfl, rfl⟩
  · intro i hi
    rw [he, List.getElem?_append_left hi]
  · rw [he]
    simp

/-- Concrete instantiation of addTask_appends: adding the title Buy milk
to a one-task collection. -/
theorem addTask_appends_witness :
    jsTrim (AppState.mk "Buy milk" [exTask1] none "" "").task ≠ "" ∧
    ((addTask (AppState.mk "Buy milk" [exTask1] none "" "") "102").tasks.length =
        (AppState.mk "Buy milk" [exTask1] none "" "").tasks.length + 1 ∧
     (addTask (AppState.mk "Buy milk" [exTask1] none "" "") "102").tasks =
        (AppState.mk "Buy milk" [exTask1] none "" "").tasks ++
          [newTask "102" (AppState.mk "Buy milk" [exTask1] none "" "").task] ∧
     (∀ i, i < (AppState.mk "Buy milk" [exTask1] none "" "").tasks.length →
        (addTask (AppState.mk "Buy milk" [exTask1] none "" "") "102").tasks[i]? =
          (AppState.mk "Buy milk" [exTask1] none "" "").tasks[i]?) ∧
     (addTask (AppState.mk "Buy milk" [exTask1] none "" "") "102").tasks[
        (AppState.mk "Buy milk" [exTask1] none "" "").tasks.length]? =
        some (newTask "102" (AppState.mk "Buy milk" [exTask1] none "" "").task) ∧
     (newTask "102" (AppState.mk "Buy milk" [exTask1] none "" "").task).completed = false ∧
     (newTask "102" (AppState.mk "Buy milk" [exTask1] none "" "").task).text =
        (AppState.mk "Buy milk" [exTask1] none "" "").task ∧
     (newTask "102" (AppState.mk "Buy milk" [exTask1] none "" "").task).description =
        some "") :=
  ⟨by decide, addTask_appends (AppState.mk "Buy milk" [exTask1] none "" "") "102" (by decide)⟩

/-- Counterexample to claim C4 as stated: with the whitespace-only input
title of three spaces (and a non-empty collection), addTask leaves the
whole state unchanged, but its effect trace is empty, so no validation
failure is surfaced to the user as an inline message or alert (an alert
would appear as an Effect.alert entry, an inline message as a state
change; there is neither). The second half of the claim is therefore
false on the code. -/
theorem addTask_blank_counterexample :
    addTask (AppState.mk "   " [exTask1] none "" "") "200" =
      AppState.mk "   " [exTask1] none "" "" ∧
    addTaskEffects (AppState.mk "   " [exTask1] none "" "") "200" = [] := by
  constructor <;> decide

/-- Claim C4 as amended: for every state whose input title trims to the
empty string, addTask leaves the task collection and all other state
unchanged and emits no effect at all; the rejection is silent (no inline
message and no alert is produced). -/
theorem addTask_blank_noop (s : AppState) (id : String)
    (h : jsTrim s.task = "") :
    addTask s id = s ∧ addTaskEffects s id = [] := by
  constructor
  · unfold addTask
    rw [if_neg (by simp [h])]
  · unfold addTaskEffects
    rw [if_neg (by simp [h])]

/-- Concrete instantiation of addTask_blank_noop: an input of two tab and
space characters is rejected silently. -/
theorem addTask_blank_noop_witness :
    jsTrim (AppState.mk " \t " [exTask1, exTask2] none "" "").task = "" ∧
    (addTask (AppState.mk " \t " [exTask1, exTask2] none "" "") "201" =
       AppState.mk " \t " [exTask1, exTask2] none "" "" ∧
     addTaskEffects (AppState.mk " \t " [exTask1, exTask2] none "" "") "201" = []) :=
  ⟨by decide, addTask_blank_noop (AppState.mk " \t " [exTask1, exTask2] none "" "") "201"
    (by decide)⟩

theorem toggleTask_involution (taskId : String) (l : List Task) :
    toggleTask taskId (toggleTask taskId l) = l := by
  unfold toggleTask
  rw [List.map_map]
  have hc : ∀ t ∈ l,
      ((fun t => if t.id = taskId then { t with completed := !t.completed } else t) ∘
       (fun t => if t.id = taskId then { t with completed := !t.completed } else t)) t
        = id t := by
    intro t _
    simp only [Function.comp_apply, id_eq]
    by_cases h : t.id = taskId
    · rw [if_pos h, if_pos (show Task.id { t with completed := !t.completed } = taskId from h)]
      simp
    · rw [if_neg h, if_neg h]
  rw [List.map_congr_left hc, List.map_id]

theorem nodup_ids_getElem_ne (l : List Task) (hu : IdsUnique l)
    (i j : Nat) (t u : Task) (hij : i ≠ j)
    (ht : l[i]? = some t) (hut : l[j]? = some u) : t.id ≠ u.id := by
  intro hcontra
  apply hij
  obtain ⟨hi, hti⟩ := List.getElem?_eq_some.mp ht
  obtain ⟨hj, htj⟩ := List.getElem?_eq_some.mp hut
  unfold IdsUnique at hu
  have hinj := List.nodup_iff_injective_get.mp hu
  have hmi : i < (l.map Task.id).length := by simpa using hi
  have hmj : j < (l.map Task.id).length := by simpa using hj
  have hgi : (l.map Task.id).get ⟨i, hmi⟩ = t.id := by
    simp [List.getElem_map, hti]
  have hgj : (l.map Task.id).get ⟨j, hmj⟩ = u.id := by
    simp [List.getElem_map, htj]
  have : (⟨i, hmi⟩ : Fin (l.map Task.id).length) = ⟨j, hmj⟩ :=
    hinj (by rw [hgi, hgj, hcontra])
  exact congrArg Fin.val this

/-- Claim C5: toggling an id present in a duplicate-free collection flips
exactly that one task (its id, title and description untouched), leaves
every task at a different position entirely unchanged, preserves length
and order, toggling twice is the identity, and toggling an absent id is a
benign no-op. The second conjunct characterizes every position of the
result; the third states that, when ids are unique, the position holding
the matched id is the only one that can change. -/
theorem toggleTask_spec (taskId : String) (l : List Task) :
    (toggleTask taskId l).length = l.length ∧
    (∀ (i : Nat) (t : Task), l[i]? = some t →
        (toggleTask taskId l)[i]? =
          some (if t.id = taskId then { t with completed := !t.completed } else t)) ∧
    (IdsUnique l → ∀ (i j : Nat) (t u : Task), i ≠ j → l[i]? = some t → t.id = taskId →
        l[j]? = some u → (toggleTask taskId l)[j]? = some u) ∧
    toggleTask taskId (toggleTask taskId l) = l ∧
    ((∀ t ∈ l, t.id ≠ taskId) → toggleTask taskId l = l) := by
  refine ⟨by simp [toggleTask], ?_, ?_, toggleTask_involution taskId l,
    toggleTask_id_not_mem taskId l⟩
  · intro i t ht
    exact toggleTask_getElem taskId l i t ht
  · intro hu i j t u hij ht hid hut
    have hne : u.id ≠ taskId := by
      intro hcontra
      exact nodup_ids_getElem_ne l hu i j t u hij ht hut (hid.trans hcontra.symm)
    rw [toggleTask_getElem taskId l j u hut, if_neg hne]

/-- Concrete instantiation of toggleTask_spec: toggling the id 100 in the
two-task example collection and once again restores it, and toggling the
absent id 999 changes nothing. -/
theorem toggleTask_spec_witness :
    (toggleTask "100" [exTask1, exTask2]).length = [exTask1, exTask2].length ∧
    toggleTask "100" (toggleTask "100" [exTask1, exTask2]) = [exTask1, exTask2] ∧
    toggleTask "999" [exTask1, exTask2] = [exTask1, exTask2] :=
  ⟨(toggleTask_spec "100" [exTask1, exTask2]).1,
   (toggleTask_spec "100" [exTask1, exTask2]).2.2.2.1,
   (toggleTask_spec "999" [exTask1, exTask2]).2.2.2.2 (by decide)⟩

instance (l : List Task) : Decidable (IdsUnique l) := by
  unfold IdsUnique
  infer_instance

/-- A concrete state with an edit session in progress on the task with id
100. -/
def exEditState : AppState :=
  { task := "", tasks := [exTask1, exTask2], editingTaskId := some "100",
    editingTaskText := "  Buy oat milk ", editingTaskDescription := "2 liters" }

/-- Claim C6: with an edit in progress on an existing id and a scratch
title that trims non-empty, updateTask replaces exactly the targeted
text and description of that task with the raw scratch values, keeping its
id, completed flag and position, leaves every other task unchanged, and
exits editing mode (clearing the scratch fields); with a scratch title
that trims empty, the whole state (in particular the collection) is left
unchanged. The if-form of the second conjunct records that only the text
and description fields of the matching task change. -/
theorem updateTask_spec (s : AppState) (eid : String)
    (he : s.editingTaskId = some eid) (hne : eid ≠ "")
    (_hmem : eid ∈ s.tasks.map Task.id) :
    (jsTrim s.editingTaskText ≠ "" →
      ((updateTask s).tasks.length = s.tasks.length ∧
       (∀ (i : Nat) (t : Task), s.tasks[i]? = some t →
          (updateTask s).tasks[i]? =
            some (if t.id = eid then
                    { t with text := s.editingTaskText,
                             description := some s.editingTaskDescription }
                  else t)) ∧
       (updateTask s).editingTaskId = none ∧
       (updateTask s).editingTaskText = "" ∧
       (updateTask s).editingTaskDescription = "")) ∧
    (jsTrim s.editingTaskText = "" → updateTask s = s) := by
  constructor
  · intro htrim
    have hu : updateTask s =
        { s with
          tasks := replaceTask eid s.editingTaskText s.editingTaskDescription s.tasks,
          editingTaskId := none, editingTaskText := "",
          editingTaskDescription := "" } := by
      unfold updateTask
      rw [he]
      exact if_pos ⟨hne, htrim⟩
    refine ⟨?_, ?_, ?_, ?_, ?_⟩
    · rw [hu]; simp [replaceTask]
    · intro i t ht
      rw [hu]
      exact replaceTask_getElem eid s.editingTaskText s.editingTaskDescription s.tasks i t ht
    · rw [hu]
    · rw [hu]
    · rw [hu]
  · intro htrim
    unfold updateTask
    rw [he]
    exact if_neg fun hc => hc.2 htrim

/-- Concrete instantiation of updateTask_spec: committing an edit of the
task with id 100 in the two-task example state. -/
theorem updateTask_spec_witness :
    (exEditState.editingTaskId = some "100" ∧ "100" ≠ ("" : String) ∧
       "100" ∈ exEditState.tasks.map Task.id) ∧
    ((jsTrim exEditState.editingTaskText ≠ "" →
       ((updateTask exEditState).tasks.length = exEditState.tasks.length ∧
        (∀ (i : Nat) (t : Task), exEditState.tasks[i]? = some t →
           (updateTask exEditState).tasks[i]? =
             some (if t.id = "100" then
                     { t with text := exEditState.editingTaskText,
                              description := some exEditState.editingTaskDescription }
                   else t)) ∧
        (updateTask exEditState).editingTaskId = none ∧
        (updateTask exEditState).editingTaskText = "" ∧
        (updateTask exEditState).editingTaskDescription = "")) ∧
     (jsTrim exEditState.editingTaskText = "" → updateTask exEditState = exEditState)) :=
  ⟨⟨by decide, by decide, by decide⟩,
   updateTask_spec exEditState "100" (by decide) (by decide) (by decide)⟩

/-- Claim C7: deleting an id present in a duplicate-free collection
removes exactly the one task carrying that id, splitting the collection
as l1 ++ that task :: l2 and leaving l1 ++ l2, so the relative order and
the contents of all remaining tasks are untouched; deleting an id not in
the collection changes nothing. -/
theorem deleteTask_spec (taskId : String) (s : AppState)
    (hu : IdsUnique s.tasks) :
    (∀ t ∈ s.tasks, t.id = taskId →
       ∃ l1 l2, s.tasks = l1 ++ t :: l2 ∧
         (deleteTask taskId s).tasks = l1 ++ l2 ∧
         (∀ u ∈ l1, u.id ≠ taskId) ∧ (∀ u ∈ l2, u.id ≠ taskId)) ∧
    ((∀ t ∈ s.tasks, t.id ≠ taskId) → deleteTask taskId s = s) := by
  constructor
  · intro t htl hid
    obtain ⟨l1, l2, hsplit, hrem, hl1, hl2⟩ :=
      removeTask_mem_split taskId s.tasks hu t htl hid
    have hdel : (deleteTask taskId s).tasks = removeTask taskId s.tasks := by
      unfold deleteTask
      cases hf : s.tasks.find? (fun t => t.id == taskId) with
      | none =>
        exact absurd (by simpa using List.find?_eq_none.mp hf t htl) (by simp [hid])
      | some u => rfl
    exact ⟨l1, l2, hsplit, hdel.trans hrem, hl1, hl2⟩
  · exact deleteTask_not_mem taskId s

/-- Concrete instantiation of deleteTask_spec: deleting id 100 from the
two-task example collection, and deleting the absent id 999. -/
theorem deleteTask_spec_witness :
    IdsUnique (AppState.mk "" [exTask1, exTask2] none "" "").tasks ∧
    ((∀ t ∈ (AppState.mk "" [exTask1, exTask2] none "" "").tasks, t.id = "100" →
        ∃ l1 l2, (AppState.mk "" [exTask1, exTask2] none "" "").tasks = l1 ++ t :: l2 ∧
          (deleteTask "100" (AppState.mk "" [exTask1, exTask2] none "" "")).tasks = l1 ++ l2 ∧
          (∀ u ∈ l1, u.id ≠ "100") ∧ (∀ u ∈ l2, u.id ≠ "100")) ∧
     ((∀ t ∈ (AppState.mk "" [exTask1, exTask2] none "" "").tasks, t.id ≠ "100") →
        deleteTask "100" (AppState.mk "" [exTask1, exTask2] none "" "") =
          AppState.mk "" [exTask1, exTask2] none "" "")) :=
  ⟨by decide, deleteTask_spec "100" (AppState.mk "" [exTask1, exTask2] none "" "") (by decide)⟩

/-- Claim C8: a second delete request for an id whose delete has already
been requested is idempotent. At the collection level, the removal the
completion callback performs applied twice equals the removal applied
once; at the state level, a whole second deleteTask call after the first
one has completed is the identity. Neither form needs any assumption, so
a duplicated request (the already-deleting task is still present until
its exit animation completes, so the second request schedules the same
filter again) removes no other task and cannot fail. -/
theorem deleteTask_idempotent (taskId : String) (l : List Task) (s : AppState) :
    removeTask taskId (removeTask taskId l) = removeTask taskId l ∧
    deleteTask taskId (deleteTask taskId s) = deleteTask taskId s := by
  constructor
  · unfold removeTask
    rw [List.filter_filter]
    apply List.filter_congr
    intro t _
    cases h : t.id == taskId <;> simp [h]
  · unfold deleteTask
    cases hf : s.tasks.find? (fun t => t.id == taskId) with
    | none => simp [hf]
    | some u =>
      simp only [hf]
      rw [show (({ s with tasks := removeTask taskId s.tasks } : AppState).tasks.find?
            (fun t => t.id == taskId)) = none from find?_removeTask taskId s.tasks]

theorem decodeTask_encodeTask (t : Task) :
    decodeTask (encodeTask t) = some { t with animationValue := some 1 } := by
  cases t with
  | mk id text completed description animationValue =>
    cases description <;> cases animationValue <;>
      simp [encodeTask, decodeTask, lookupField, List.find?]

theorem decodeTasks_encodeTasks (l : List Task) :
    decodeTasks (encodeTasks l) =
      some (l.map fun t => { t with animationValue := some 1 }) := by
  unfold decodeTasks encodeTasks
  induction l with
  | nil => rfl
  | cons t l ih =>
    show (encodeTask t :: l.map encodeTask).mapM decodeTask = _
    have ih2 : (l.map encodeTask).mapM decodeTask =
        some (l.map fun t => { t with animationValue := some 1 }) := ih
    rw [List.mapM_cons, decodeTask_encodeTask]
    simp only [Option.pure_def, Option.bind_eq_bind, Option.some_bind]
    rw [ih2]
    rfl

/-- Claim C2: deserializing the serialized form of any task collection
(JSON.parse of JSON.stringify followed by the load-time reconstruction)
reproduces an equivalent collection: the same ids, titles, descriptions
and completed flags, in the same order. (The reconstruction replaces only
the transient animationValue with a fresh Animated.Value(1).) -/
theorem storage_roundTrip (l : List Task) :
    ∃ l2, decodeTasks (encodeTasks l) = some l2 ∧
      l2.map Task.id = l.map Task.id ∧
      l2.map Task.text = l.map Task.text ∧
      l2.map Task.description = l.map Task.description ∧
      l2.map Task.completed = l.map Task.completed ∧
      l2.length = l.length := by
  refine ⟨l.map fun t => { t with animationValue := some 1 },
    decodeTasks_encodeTasks l, ?_, ?_, ?_, ?_, ?_⟩ <;>
    simp [List.map_map, Function.comp]

/-- Counterexample to claim C9 as stated: the document JSON.stringify
writes for a concrete stored task does not consist of exactly the domain
fields; it also carries the transient animationValue entry, because the
task objects keep their animationValue property and JSON.stringify
serializes every own enumerable property. -/
theorem encode_fields_counterexample :
    "animationValue" ∈ jsonFieldNames (encodeTask exTask1) ∧
    jsonFieldNames (encodeTask exTask1) ≠ ["id", "text", "completed", "description"] := by
  constructor <;> decide

/-- Claim C9 as amended: for every task whose description and
animationValue properties are present (every task the app itself
constructs), the serialized object consists of the domain fields id,
text, completed and description followed by the transient animationValue
field; the stored animationValue is however discarded on load, where it
is overwritten with a fresh value 1. -/
theorem encodeTask_fieldNames (t : Task) (hd : t.description.isSome)
    (ha : t.animationValue.isSome) :
    jsonFieldNames (encodeTask t) =
      ["id", "text", "completed", "description", "animationValue"] ∧
    ∃ t2, decodeTask (encodeTask t) = some t2 ∧ t2.animationValue = some 1 := by
  obtain ⟨d, hd⟩ := Option.isSome_iff_exists.mp hd
  obtain ⟨v, ha⟩ := Option.isSome_iff_exists.mp ha
  constructor
  · simp [jsonFieldNames, encodeTask, hd, ha]
  · exact ⟨_, decodeTask_encodeTask t, rfl⟩

/-- Concrete instantiation of encodeTask_fieldNames at the second example
task. -/
theorem encodeTask_fieldNames_witness :
    (exTask2.description.isSome ∧ exTask2.animationValue.isSome) ∧
    (jsonFieldNames (encodeTask exTask2) =
       ["id", "text", "completed", "description", "animationValue"] ∧
     ∃ t2, decodeTask (encodeTask exTask2) = some t2 ∧ t2.animationValue = some 1) :=
  ⟨⟨by decide, by decide⟩, encodeTask_fieldNames exTask2 (by decide) (by decide)⟩

theorem updateTask_tasks_map_id (s : AppState) :
    (updateTask s).tasks.map Task.id = s.tasks.map Task.id := by
  cases he : s.editingTaskId with
  | none =>
    have hs : updateTask s = s := by
      unfold updateTask
      rw [he]
    rw [hs]
  | some eid =>
    by_cases hc : eid ≠ "" ∧ jsTrim s.editingTaskText ≠ ""
    · have hs : updateTask s =
        { s with
          tasks := replaceTask eid s.editingTaskText s.editingTaskDescription s.tasks,
          editingTaskId := none, editingTaskText := "",
          editingTaskDescription := "" } := by
        unfold updateTask
        rw [he]
        exact if_pos hc
      rw [hs]
      exact replaceTask_map_id _ _ _ _
    · have hs : updateTask s = s := by
        unfold updateTask
        rw [he]
        exact if_neg hc
      rw [hs]

theorem step_ids_sublist (s : AppState) (op : Op) (hop : ∀ t, op ≠ Op.add t) :
    ((step s op).tasks.map Task.id).Sublist (s.tasks.map Task.id) := by
  cases op with
  | setTask v => exact List.Sublist.refl _
  | add t => exact absurd rfl (hop t)
  | toggle i =>
    show ((toggleTask i s.tasks).map Task.id).Sublist _
    rw [toggleTask_map_id]
  | startEdit i tx d => exact List.Sublist.refl _
  | setEditText v => exact List.Sublist.refl _
  | setEditDesc v => exact List.Sublist.refl _
  | cancelEdit => exact List.Sublist.refl _
  | commitEdit =>
    show ((updateTask s).tasks.map Task.id).Sublist _
    rw [updateTask_tasks_map_id]
  | delete i =>
    show ((deleteTask i s).tasks.map Task.id).Sublist _
    cases hf : s.tasks.find? (fun t => t.id == i) with
    | none =>
      have hs : deleteTask i s = s := by
        unfold deleteTask
        rw [hf]
      rw [hs]
    | some u =>
      have hs : (deleteTask i s).tasks = removeTask i s.tasks := by
        unfold deleteTask
        rw [hf]
      rw [hs]
      exact removeTask_map_id_sublist i s.tasks

theorem run_ids_unique (ops : List Op) (s : AppState)
    (hu : IdsUnique s.tasks)
    (hdist : (addIds ops).Nodup)
    (hfresh : ∀ i ∈ addIds ops, i ∉ s.tasks.map Task.id) :
    IdsUnique (run s ops).tasks := by
  induction ops generalizing s with
  | nil => exact hu
  | cons op ops ih =>
    show IdsUnique (run (step s op) ops).tasks
    by_cases hadd : ∃ t, op = Op.add t
    · obtain ⟨t, rfl⟩ := hadd
      have hids : addIds (Op.add t :: ops) = genId t :: addIds ops := rfl
      rw [hids] at hdist hfresh
      have hd2 := (List.nodup_cons.mp hdist).2
      have hd1 := (List.nodup_cons.mp hdist).1
      by_cases hc : jsTrim s.task ≠ ""
      · have hstep : (step s (Op.add t)).tasks = s.tasks ++ [newTask (genId t) s.task] := by
          show (addTask s (genId t)).tasks = _
          unfold addTask
          rw [if_pos hc]
        apply ih
        · unfold IdsUnique
          rw [hstep, List.map_append]
          simp only [List.map_cons, List.map_nil, newTask]
          rw [List.nodup_append]
          refine ⟨hu, List.nodup_singleton _, ?_⟩
          intro a ha hmem
          rw [List.mem_singleton] at hmem
          subst hmem
          exact hfresh (genId t) (List.mem_cons_self _ _) ha
        · exact hd2
        · intro i hi
          rw [hstep, List.map_append]
          simp only [List.mem_append, List.map_cons, List.map_nil,
            List.mem_singleton, newTask]
          rintro (hmem | hmem)
          · exact hfresh i (List.mem_cons_of_mem _ hi) hmem
          · exact hd1 (hmem ▸ hi)
      · have hstep : step s (Op.add t) = s := by
          show addTask s (genId t) = s
          unfold addTask
          rw [if_neg hc]
        rw [hstep]
        exact ih s hu hd2 fun i hi => hfresh i (List.mem_cons_of_mem _ hi)
    · have hop : ∀ t, op ≠ Op.add t := fun t hc => hadd ⟨t, hc⟩
      have hsub := step_ids_sublist s op hop
      have hids : addIds (op :: ops) = addIds ops := by
        cases op with
        | add t => exact absurd ⟨t, rfl⟩ hadd
        | setTask v => rfl
        | toggle i => rfl
        | startEdit i tx d => rfl
        | setEditText v => rfl
        | setEditDesc v => rfl
        | cancelEdit => rfl
        | commitEdit => rfl
        | delete i => rfl
      rw [hids] at hdist hfresh
      exact ih (step s op) (hu.sublist hsub) hdist
        fun i hi hmem => hfresh i hi (hsub.subset hmem)

/-- Claim C3: starting from the empty initial state, any session of UI
events (typing, add, toggle, edit, delete) whose add events generate
pairwise distinct id strings (the spec assumes the Date.now() derived ids
do not collide within a session) leaves the live collection with pairwise
distinct task ids. Toggle and edit commits preserve the id sequence
unchanged and deletion only removes entries, so uniqueness is an
invariant of every reachable state. -/
theorem session_ids_unique (ops : List Op) (h : (addIds ops).Nodup) :
    IdsUnique (run initialState ops).tasks :=
  run_ids_unique ops initialState (List.nodup_nil) h
    (fun i _ hmem => by simp [initialState] at hmem)

/-- Concrete instantiation of session_ids_unique: the example session of
the spec (add Buy milk, add Walk dog, toggle the first id, then delete
and edit events) with the distinct timestamps 100 and 101. -/
theorem session_ids_unique_witness :
    (addIds [Op.setTask "Buy milk", Op.add 100, Op.setTask "Walk dog", Op.add 101,
       Op.toggle "100", Op.startEdit "101" "Walk dog" "30 min", Op.commitEdit,
       Op.delete "100"]).Nodup ∧
    IdsUnique (run initialState
      [Op.setTask "Buy milk", Op.add 100, Op.setTask "Walk dog", Op.add 101,
       Op.toggle "100", Op.startEdit "101" "Walk dog" "30 min", Op.commitEdit,
       Op.delete "100"]).tasks :=
  ⟨by decide,
   session_ids_unique
     [Op.setTask "Buy milk", Op.add 100, Op.setTask "Walk dog", Op.add 101,
      Op.toggle "100", Op.startEdit "101" "Walk dog" "30 min", Op.commitEdit,
      Op.delete "100"] (by decide)⟩

theorem updateTask_commit_eq (s : AppState) (eid : String)
    (he : s.editingTaskId = some eid) (hne : eid ≠ "")
    (ht : jsTrim s.editingTaskText ≠ "") :
    updateTask s =
      { s with
        tasks := replaceTask eid s.editingTaskText s.editingTaskDescription s.tasks,
        editingTaskId := none, editingTaskText := "",
        editingTaskDescription := "" } := by
  unfold updateTask
  rw [he]
  exact if_pos ⟨hne, ht⟩

/-- Claim C10: both on a successful add and on a successful edit commit
the stored task text is the raw input string, not its trimmed form: the
task appended by addTask carries exactly the input-field string, and the
task rewritten by updateTask carries exactly the scratch title, so a
title with whitespace around non-whitespace characters is stored with
that whitespace intact (trimming is used only inside the guards). -/
theorem stored_text_raw (s : AppState) (id eid : String)
    (ha : jsTrim s.task ≠ "") (he : s.editingTaskId = some eid)
    (hne : eid ≠ "") (ht : jsTrim s.editingTaskText ≠ "") :
    ((addTask s id).tasks = s.tasks ++ [newTask id s.task] ∧
     (newTask id s.task).text = s.task) ∧
    (∀ (i : Nat) (t : Task), s.tasks[i]? = some t → t.id = eid →
       ((updateTask s).tasks[i]?).map Task.text = some s.editingTaskText) := by
  constructor
  · refine ⟨?_, rfl⟩
    unfold addTask
    rw [if_pos ha]
  · intro i t hti hid
    rw [updateTask_commit_eq s eid he hne ht]
    rw [show ({ s with
        tasks := replaceTask eid s.editingTaskText s.editingTaskDescription s.tasks,
        editingTaskId := none, editingTaskText := "",
        editingTaskDescription := "" } : AppState).tasks =
      replaceTask eid s.editingTaskText s.editingTaskDescription s.tasks from rfl]
    rw [replaceTask_getElem eid s.editingTaskText s.editingTaskDescription s.tasks i t hti]
    rw [if_pos hid]
    rfl

/-- Concrete instantiation of stored_text_raw: the add input and the
scratch title both carry surrounding whitespace, and the stored texts
keep it. -/
theorem stored_text_raw_witness :
    (jsTrim (AppState.mk "  milk  " [exTask1] (some "100") " oat " "d").task ≠ "" ∧
     (AppState.mk "  milk  " [exTask1] (some "100") " oat " "d").editingTaskId =
       some "100" ∧ "100" ≠ ("" : String) ∧
     jsTrim (AppState.mk "  milk  " [exTask1] (some "100") " oat " "d").editingTaskText
       ≠ "") ∧
    (((addTask (AppState.mk "  milk  " [exTask1] (some "100") " oat " "d") "300").tasks =
        (AppState.mk "  milk  " [exTask1] (some "100") " oat " "d").tasks ++
          [newTask "300" (AppState.mk "  milk  " [exTask1] (some "100") " oat " "d").task] ∧
      (newTask "300" (AppState.mk "  milk  " [exTask1] (some "100") " oat " "d").task).text =
        (AppState.mk "  milk  " [exTask1] (some "100") " oat " "d").task) ∧
     (∀ (i : Nat) (t : Task),
        (AppState.mk "  milk  " [exTask1] (some "100") " oat " "d").tasks[i]? = some t →
        t.id = "100" →
        ((updateTask (AppState.mk "  milk  " [exTask1] (some "100") " oat " "d")).tasks[i]?).map
            Task.text =
          some (AppState.mk "  milk  " [exTask1] (some "100") " oat " "d").editingTaskText)) :=
  ⟨⟨by decide, by decide, by decide, by decide⟩,
   stored_text_raw (AppState.mk "  milk  " [exTask1] (some "100") " oat " "d") "300" "100"
     (by decide) (by decide) (by decide) (by decide)⟩

end SimpleTodo
